import Mathlib

/-!
Verification of the NanoWallet Ledger driver
(`src/app/modules/ledger/hw-app-symbol.js`).

The module drives a Ledger hardware device over one transport primitive
`transport.send(cla, ins, p1, p2, data) -> response bytes`.  We embed the
three operations (`getAppVersion`, `getAccount`, `signTransaction`) and the
chunked-transfer engine (`ledgerMessageHandler`) shallowly:

* bytes are `Nat` values (< 256 where the source guarantees it) and buffers
  are `List Nat`;
* JavaScript numbers appearing in the chunk loop (`offset`, `chunkSize`,
  `maxChunkSize`) are embedded as `Int`, since the source arithmetic can go
  negative when the derivation path exceeds the packet budget;
* Node `Buffer` write/copy range checks throw `ERR_OUT_OF_RANGE`; these
  exceptions are embedded as `Except LedgerError`, and the device status
  object `\x7b statusCode: 27904 \x7d` thrown by `getAccount` is the
  `LedgerError.status` constructor;
* the loop `while (offset !== rawTx.length)` is embedded as a fuel-indexed
  recursion (`none` = fuel exhausted; the theorems show the fuel
  `rawTx.length + 1` used by `ledgerMessageHandler` always suffices);
* the external transport is an oracle `Nat → APDU → List Nat` giving the
  device response of each exchange in order;
* hex strings (JavaScript strings of hex characters, as produced by
  `Buffer.toString('hex')` and `transaction.serialize()`) are lists of
  character codes, built by `hexEncode`;
* `Buffer.toString()` with the default utf8 encoding (used for the
  `CONTINUE_SENDING` comparison) is embedded as a WHATWG-style UTF-8
  decoder producing the code points of the resulting string, with U+FFFD
  for bytes that are not part of a well-formed sequence.
-/

/-- Big-endian 4-byte encoding of a 32-bit value: the bytes written by
Node `buf.writeUInt32BE(v, off)` (callers check `v < 2^32`). -/
def writeUInt32BE (v : Nat) : List Nat :=
  [v / 2 ^ 24 % 256, v / 2 ^ 16 % 256, v / 2 ^ 8 % 256, v % 256]

/-- The derivation-path header placed at the front of a first packet:
one path-segment-count byte followed by each segment as big-endian u32
(hw-app-symbol.js lines 90-93 and 170-173). -/
def pathHeader (bipPath : List Nat) : List Nat :=
  bipPath.length :: (bipPath.map writeUInt32BE).flatten

/-- Lower-case hex digit character code, as produced by Node
`buf.toString('hex')`. -/
def hexDigitChar (n : Nat) : Nat :=
  if n < 10 then 48 + n else 87 + n

/-- Node `buf.toString('hex')`: two lower-case hex character codes per
byte. -/
def hexEncode : List Nat → List Nat
  | [] => []
  | b :: t => hexDigitChar (b / 16) :: hexDigitChar (b % 16) :: hexEncode t

/-- Is the byte a UTF-8 continuation byte (10xxxxxx)? -/
def isCont (c : Nat) : Bool :=
  0x80 ≤ c ∧ c < 0xC0

/-- Admissible range of the first continuation byte after lead byte `b`
(WHATWG UTF-8: E0 → A0..BF, ED → 80..9F, F0 → 90..BF, F4 → 80..8F,
otherwise 80..BF). -/
def utf8Cont1OK (b c1 : Nat) : Bool :=
  if b = 0xE0 then 0xA0 ≤ c1 ∧ c1 < 0xC0
  else if b = 0xED then 0x80 ≤ c1 ∧ c1 < 0xA0
  else if b = 0xF0 then 0x90 ≤ c1 ∧ c1 < 0xC0
  else if b = 0xF4 then 0x80 ≤ c1 ∧ c1 < 0x90
  else isCont c1

/-- Decode one UTF-8 unit starting at byte `b` with lookahead `rest`:
returns the code point (U+FFFD on a maximal invalid subpart) and how many
extra bytes beyond `b` were consumed. -/
def utf8Step (b : Nat) (rest : List Nat) : Nat × Nat :=
  if b < 0x80 then (b, 0)
  else if b < 0xC2 then (0xFFFD, 0)
  else if b < 0xE0 then
    match rest with
    | c1 :: _ => if isCont c1 then ((b - 0xC0) * 64 + (c1 - 0x80), 1) else (0xFFFD, 0)
    | [] => (0xFFFD, 0)
  else if b < 0xF0 then
    match rest with
    | c1 :: c2 :: _ =>
      if utf8Cont1OK b c1 then
        if isCont c2 then ((b - 0xE0) * 4096 + (c1 - 0x80) * 64 + (c2 - 0x80), 2)
        else (0xFFFD, 1)
      else (0xFFFD, 0)
    | [c1] => if utf8Cont1OK b c1 then (0xFFFD, 1) else (0xFFFD, 0)
    | [] => (0xFFFD, 0)
  else if b < 0xF5 then
    match rest with
    | c1 :: c2 :: c3 :: _ =>
      if utf8Cont1OK b c1 then
        if isCont c2 then
          if isCont c3 then
            ((b - 0xF0) * 262144 + (c1 - 0x80) * 4096 + (c2 - 0x80) * 64 + (c3 - 0x80), 3)
          else (0xFFFD, 2)
        else (0xFFFD, 1)
      else (0xFFFD, 0)
    | [c1, c2] =>
      if utf8Cont1OK b c1 then (if isCont c2 then (0xFFFD, 2) else (0xFFFD, 1))
      else (0xFFFD, 0)
    | [c1] => if utf8Cont1OK b c1 then (0xFFFD, 1) else (0xFFFD, 0)
    | [] => (0xFFFD, 0)
  else (0xFFFD, 0)

/-- Fuel-indexed UTF-8 decoding; each step consumes at least one byte, so
fuel equal to the byte count always suffices. -/
def utf8DecodeAux : Nat → List Nat → List Nat
  | 0, _ => []
  | _ + 1, [] => []
  | fuel + 1, b :: rest =>
    (utf8Step b rest).1 :: utf8DecodeAux fuel (rest.drop (utf8Step b rest).2)

/-- Node `buffer.toString()` (default utf8 encoding), as the list of code
points of the resulting JavaScript string. -/
def utf8Decode (l : List Nat) : List Nat :=
  utf8DecodeAux l.length l

/-- The character codes of the literal `'0x9000'` (hw-app-symbol.js line
150): the string the final response is compared against. -/
def CONTINUE_SENDING : List Nat :=
  [0x30, 0x78, 0x39, 0x30, 0x30, 0x30]

deriving instance DecidableEq for Except

/-- A command packet: the five APDU fields handed to
`transport.send(cla, ins, p1, p2, data)`. -/
structure APDU where
  cla : Nat
  ins : Nat
  p1 : Nat
  p2 : Nat
  data : List Nat
deriving DecidableEq

/-- Exceptions the driver can raise: Node `Buffer` range errors
(`writeInt8` value out of range, `writeUInt32BE`/`writeUInt8` value or
offset out of range, negative `Buffer.alloc` size, out-of-range
`buf.copy`) and the thrown device-status object of `getAccount`. -/
inductive LedgerError where
  | int8OutOfRange
  | uint32OutOfRange
  | uint8OutOfRange
  | allocNegative
  | copyOutOfRange
  | status (statusCode : Nat)
deriving DecidableEq

/-- One iteration of the chunk-building loop: the loop variables
(`offset` at entry and the computed `chunkSize`) together with the APDU
pushed onto `apduArray`. -/
structure Chunk where
  offset : Int
  chunkSize : Int
  apdu : APDU
deriving DecidableEq

/-- Observable behaviour of one `ledgerMessageHandler` call: the packets
sent (in order) and the returned value — `none` embeds the implicit
`undefined` return taken when the final response decodes to the
`CONTINUE_SENDING` string. -/
structure HandlerTrace where
  sent : List APDU
  result : Option (List Nat)
deriving DecidableEq

/-- Result of `getAppVersion`; `none` embeds the JavaScript `undefined`
obtained when `response[i]` indexes past the end of the buffer. -/
structure VersionResult where
  majorVersion : Option Nat
  minorVersion : Option Nat
  patchVersion : Option Nat
deriving DecidableEq

/-- Result of `getAccount`: the public key as a hex string
(character codes). -/
structure AccountResult where
  publicKey : List Nat
deriving DecidableEq

/-- The fixed version-query APDU (hw-app-symbol.js lines 46-52):
class 0xE0, instruction 0x06, both parameters 0, data `Buffer.alloc(1, 0)`. -/
def getAppVersionApdu : APDU :=
  ⟨0xe0, 0x06, 0x00, 0x00, [0x00]⟩

/-- Operation `getAppVersion` (hw-app-symbol.js lines 44-64): one exchange, then the
response bytes at offsets 1, 2, 3 become major/minor/patch.  Also returns
the list of packets sent. -/
def getAppVersion (transport : APDU → List Nat) : VersionResult × List APDU :=
  let response := transport getAppVersionApdu
  (⟨response.get? 1, response.get? 2, response.get? 3⟩, [getAppVersionApdu])

/-- The account-query APDU built by `getAccount` (hw-app-symbol.js lines
74-94): `Buffer.alloc(1 + 4L + 1)`, `writeInt8(L, 0)` (throws for
`L > 127`), each segment via `writeUInt32BE` (throws for a value ≥ 2^32),
then `writeUInt8(networkType, 1 + 4L)` (throws for a value ≥ 256). -/
def getAccountApdu (bipPath : List Nat) (networkType : Nat) (display : Bool) :
    Except LedgerError APDU :=
  if 127 < bipPath.length then Except.error LedgerError.int8OutOfRange
  else if ¬ (bipPath.all fun s => s < 2 ^ 32) then Except.error LedgerError.uint32OutOfRange
  else if 255 < networkType then Except.error LedgerError.uint8OutOfRange
  else Except.ok ⟨0xe0, 0x02, if display then 0x01 else 0x00, 0x80,
    bipPath.length :: ((bipPath.map writeUInt32BE).flatten ++ [networkType])⟩

/-- Operation `getAccount` (hw-app-symbol.js lines 74-108): build the packet, send
it once, then check `response[0]`; any declared public-key length other
than 32 throws `\x7b statusCode: 27904 \x7d`, otherwise the next 32 bytes
are hex-encoded.  The second component lists the packets sent. -/
def getAccount (transport : APDU → List Nat) (bipPath : List Nat)
    (networkType : Nat) (display : Bool) :
    Except LedgerError AccountResult × List APDU :=
  match getAccountApdu bipPath networkType display with
  | Except.error e => (Except.error e, [])
  | Except.ok apdu =>
    let response := transport apdu
    if response.get? 0 = some 32 then
      (Except.ok ⟨hexEncode ((response.drop 1).take 32)⟩, [apdu])
    else
      (Except.error (LedgerError.status 27904), [apdu])

/-- The byte range `[a, b)` of a buffer, as read by
`rawTx.copy(target, targetStart, a, b)` when `0 ≤ a ≤ b ≤ rawTx.length`
(callers guard exactly that range condition). -/
def sliceCopy (l : List Nat) (a b : Int) : List Nat :=
  (l.drop a.toNat).take (b - a).toNat

/-- Data buffer of a first chunk (hw-app-symbol.js lines 166, 169-174):
`Buffer.alloc(1 + 4L + chunkSize)`, `writeInt8(L, 0)`, the path segments
via `writeUInt32BE` at offsets `1 + 4i`, then
`rawTx.copy(data, 1 + 4L, 0, chunkSize)`.  The guards are the Node range
checks of those calls, in source order: a negative allocation size, a
count byte above 127, a segment value ≥ 2^32 or a segment write past the
end of the buffer (which happens exactly when `chunkSize < 0` and the path
is non-empty), and an out-of-range copy. -/
def firstChunkData (bipPath rawTx : List Nat) (chunkSize : Int) :
    Except LedgerError (List Nat) :=
  if 1 + (bipPath.length : Int) * 4 + chunkSize < 0 then Except.error LedgerError.allocNegative
  else if 127 < bipPath.length then Except.error LedgerError.int8OutOfRange
  else if ¬ (bipPath.all fun s => s < 2 ^ 32) then Except.error LedgerError.uint32OutOfRange
  else if bipPath.length ≠ 0 ∧ chunkSize < 0 then Except.error LedgerError.uint32OutOfRange
  else if chunkSize < 0 then Except.error LedgerError.copyOutOfRange
  else if (rawTx.length : Int) < chunkSize then Except.error LedgerError.copyOutOfRange
  else Except.ok (pathHeader bipPath ++ sliceCopy rawTx 0 chunkSize)

/-- Data buffer of a continuation chunk (hw-app-symbol.js lines 166, 176):
`Buffer.alloc(chunkSize)` then `rawTx.copy(data, 0, offset,
offset + chunkSize)`, with the corresponding Node range checks. -/
def contChunkData (rawTx : List Nat) (offset chunkSize : Int) :
    Except LedgerError (List Nat) :=
  if chunkSize < 0 then Except.error LedgerError.allocNegative
  else if offset < 0 then Except.error LedgerError.copyOutOfRange
  else if (rawTx.length : Int) < offset + chunkSize then Except.error LedgerError.copyOutOfRange
  else Except.ok (sliceCopy rawTx offset (offset + chunkSize))

/-- The chunk-building loop of `ledgerMessageHandler` (hw-app-symbol.js
lines 155-180), fuel-indexed: `while (offset !== rawTx.length)` compute
`maxChunkSize` (first iteration: `255 - 1 - 4L`; later: `255`), then
`chunkSize = offset + maxChunkSize > rawTx.length ? rawTx.length - offset
: maxChunkSize`, the parameter-1 byte, and the data buffer, and push the
packet.  `none` means the fuel ran out before `offset` reached
`rawTx.length`. -/
def buildApduArray (bipPath rawTx : List Nat) :
    Nat → Int → List Chunk → Option (Except LedgerError (List Chunk))
  | 0, offset, acc =>
    if offset = (rawTx.length : Int) then some (Except.ok acc.reverse) else none
  | fuel + 1, offset, acc =>
    if offset = (rawTx.length : Int) then some (Except.ok acc.reverse)
    else
      let maxChunkSize : Int :=
        if offset = 0 then 255 - 1 - (bipPath.length : Int) * 4 else 255
      let chunkSize : Int :=
        if (rawTx.length : Int) < offset + maxChunkSize then (rawTx.length : Int) - offset
        else maxChunkSize
      let p1 : Nat :=
        if offset = 0 then (if chunkSize < maxChunkSize then 0x00 else 0x80)
        else if chunkSize < maxChunkSize then 0x01 else 0x81
      match (if offset = 0 then firstChunkData bipPath rawTx chunkSize
             else contChunkData rawTx offset chunkSize) with
      | Except.error e => some (Except.error e)
      | Except.ok data =>
        buildApduArray bipPath rawTx fuel (offset + chunkSize)
          (⟨offset, chunkSize, ⟨0xe0, 0x04, p1, 0x80, data⟩⟩ :: acc)

/-- The send loop (hw-app-symbol.js lines 181-184): `response` starts as
`Buffer.alloc(0)` and is overwritten by each exchange in order; `i` counts
the exchanges so that the oracle can answer each one. -/
def runLoopAux (transport : Nat → APDU → List Nat) (i : Nat) (response : List Nat) :
    List APDU → List Nat
  | [] => response
  | apdu :: rest => runLoopAux transport (i + 1) (transport i apdu) rest

/-- The value of `response` after the send loop of `ledgerMessageHandler`. -/
def runLoop (transport : Nat → APDU → List Nat) (apdus : List APDU) : List Nat :=
  runLoopAux transport 0 [] apdus

/-- Operation `ledgerMessageHandler` (hw-app-symbol.js lines 146-189): build the
chunk plan, send every packet in order, then return the final response
unless its `toString()` equals `CONTINUE_SENDING`, in which case the
function returns `undefined` (`result := none`).  The fuel
`rawTx.length + 1` bounds the loop; the termination theorems show it is
never exhausted. -/
def ledgerMessageHandler (bipPath rawTx : List Nat)
    (transport : Nat → APDU → List Nat) :
    Option (Except LedgerError HandlerTrace) :=
  match buildApduArray bipPath rawTx (rawTx.length + 1) 0 [] with
  | none => none
  | some (Except.error e) => some (Except.error e)
  | some (Except.ok chunks) =>
    let apdus := chunks.map fun c => c.apdu
    let response := runLoop transport apdus
    some (Except.ok ⟨apdus,
      if utf8Decode response = CONTINUE_SENDING then none else some response⟩)

/-- The signed-payload splice of `signTransaction` (hw-app-symbol.js lines
125-127).  All operands are JavaScript strings of hex characters:
`rawPayload` is the hex serialization of the transaction, `h` is the hex
encoding of the device response, `signature = h.slice(0, 128)`, and the
payload is `rawPayload.slice(0, 16) + signature + signerPublicKey +
rawPayload.slice(16 + 128 + 64)` — string offsets, i.e. hex-character
offsets. -/
def signTransactionPayload (rawPayload response signerPublicKey : List Nat) : List Nat :=
  rawPayload.take 16 ++ (hexEncode response).take 128 ++ signerPublicKey
    ++ rawPayload.drop (16 + 128 + 64)

/-- Modelled from the claim's wording, for comparison with the source
splice: claim C4 reads the offsets as BYTE offsets — "the first 16 bytes
of the raw serialized transaction", the 64-byte signature ("the first 128
hex characters of the final device response", i.e. its first 64 bytes),
the signer public key, then "the remainder of the raw transaction starting
at byte offset 16 + 128 + 64". -/
def claimSpliceBytes (rawPayloadBytes responseBytes signerPublicKeyBytes : List Nat) :
    List Nat :=
  rawPayloadBytes.take 16 ++ responseBytes.take 64 ++ signerPublicKeyBytes
    ++ rawPayloadBytes.drop (16 + 128 + 64)

/-- The continuation chunk produced when an iteration starts at byte
`offset` with `0 < offset < rawTx.length` (derived closed form of one
loop iteration; proved equal to the source loop below). -/
def contChunkOf (rawTx : List Nat) (offset : Nat) : Chunk :=
  ⟨(offset : Int), ((min (rawTx.length - offset) 255 : Nat) : Int),
    ⟨0xe0, 0x04, if min (rawTx.length - offset) 255 < 255 then 0x01 else 0x81, 0x80,
      (rawTx.drop offset).take (min (rawTx.length - offset) 255)⟩⟩

/-- All chunks the loop produces from byte `offset` on, once past the
first iteration (derived closed form; proved equal to the source loop
below). -/
def contChunks (rawTx : List Nat) (offset : Nat) : List Chunk :=
  if _h : rawTx.length ≤ offset then []
  else contChunkOf rawTx offset :: contChunks rawTx (offset + min (rawTx.length - offset) 255)
termination_by rawTx.length - offset
decreasing_by omega

/-- The whole chunk plan for an in-budget derivation path (derived closed
form; proved equal to the source loop below). -/
def fullPlan (bipPath rawTx : List Nat) : List Chunk :=
  if rawTx.length = 0 then []
  else
    ⟨0, ((min rawTx.length (254 - 4 * bipPath.length) : Nat) : Int),
      ⟨0xe0, 0x04,
        if min rawTx.length (254 - 4 * bipPath.length) < 254 - 4 * bipPath.length
          then 0x00 else 0x80,
        0x80,
        pathHeader bipPath ++ rawTx.take (min rawTx.length (254 - 4 * bipPath.length))⟩⟩
      :: contChunks rawTx (min rawTx.length (254 - 4 * bipPath.length))

theorem hexEncode_append (a b : List Nat) :
    hexEncode (a ++ b) = hexEncode a ++ hexEncode b := by
  induction a with
  | nil => rfl
  | cons x t ih => simp [hexEncode, ih]

theorem hexEncode_take (l : List Nat) : ∀ n, (hexEncode l).take (2 * n) = hexEncode (l.take n) := by
  induction l with
  | nil => intro n; simp [hexEncode]
  | cons b t ih =>
    intro n
    cases n with
    | zero => simp [hexEncode]
    | succ m =>
      have h2 : 2 * (m + 1) = (2 * m + 1) + 1 := by ring
      simp [hexEncode, h2, List.take_succ_cons, ih m]

theorem hexEncode_drop (l : List Nat) : ∀ n, (hexEncode l).drop (2 * n) = hexEncode (l.drop n) := by
  induction l with
  | nil => intro n; simp [hexEncode]
  | cons b t ih =>
    intro n
    cases n with
    | zero => simp [hexEncode]
    | succ m =>
      have h2 : 2 * (m + 1) = (2 * m + 1) + 1 := by ring
      simp [hexEncode, h2, List.drop_succ_cons, ih m]

/-- Claim C4 (amended): the splice of `signTransaction` operates on hex
STRINGS, so its offsets count hex characters, not bytes: the payload is
the first 16 hex characters (8 bytes) of the raw serialized transaction,
then the 128-hex-character signature (the first 64 bytes of the final
device response), then the signer public key, then the remainder of the
raw transaction from hex-character offset 16 + 128 + 64 = 208, i.e. byte
offset 104.  At the byte level: bytes 0..8 of the raw transaction, 64
signature bytes, the public key, then the raw bytes from offset 104. -/
theorem signTransaction_splice_hex_units (raw response pk : List Nat) :
    signTransactionPayload (hexEncode raw) response (hexEncode pk)
      = hexEncode (raw.take 8 ++ response.take 64 ++ pk ++ raw.drop 104) := by
  have h16 := hexEncode_take raw 8
  have h128 := hexEncode_take response 64
  have h208 := hexEncode_drop raw 104
  norm_num at h16 h128 h208
  simp [signTransactionPayload, hexEncode_append, h16, h128, h208]

set_option maxRecDepth 10000 in
/-- Claim C4 counterexample: reading the splice offsets as BYTE offsets
(first 16 bytes, remainder from byte offset 208), as the claim states
them, does not reproduce the signed payload the source builds.  Here the
raw transaction is the 250-byte sequence 0,1,...,249 (500 hex characters),
the device response is 64 bytes 0x11 and the public key 32 bytes 0x22:
the source splice keeps 500 hex characters (16 + 128 + 64 + 292), while
the claim's byte-offset splice yields 112 bytes (224 hex characters). -/
theorem splice_byte_offsets_counterexample :
    signTransactionPayload (hexEncode (List.range 250)) (List.replicate 64 0x11)
        (hexEncode (List.replicate 32 0x22))
      ≠ hexEncode (claimSpliceBytes (List.range 250) (List.replicate 64 0x11)
          (List.replicate 32 0x22)) := by decide

theorem pathSegments_length (bipPath : List Nat) :
    ((bipPath.map writeUInt32BE).flatten).length = 4 * bipPath.length := by
  induction bipPath with
  | nil => rfl
  | cons s t ih => simp [writeUInt32BE, ih]; ring

theorem getAccount_sent {bipPath : List Nat} {networkType : Nat} {display : Bool}
    {apdu : APDU} (transport : APDU → List Nat)
    (h : getAccountApdu bipPath networkType display = Except.ok apdu) :
    (getAccount transport bipPath networkType display).2 = [apdu] := by
  simp only [getAccount, h]
  split <;> rfl

/-- Claim C6: for a derivation path of length L within the budget (L ≤ 63,
u32 segments, byte-sized network type), `getAccount` builds exactly one
packet: class 0xE0, instruction 0x02, parameter-1 = 0x01 iff display is
requested, parameter-2 = 0x80, and a data buffer of exactly 2 + 4L bytes:
the count byte, each segment big-endian, then the network-type byte. -/
theorem getAccount_packet_layout (bipPath : List Nat) (networkType : Nat) (display : Bool)
    (hL : bipPath.length ≤ 63) (hseg : ∀ s ∈ bipPath, s < 2 ^ 32) (hnet : networkType < 256) :
    ∃ apdu, getAccountApdu bipPath networkType display = Except.ok apdu ∧
      apdu.cla = 0xe0 ∧ apdu.ins = 0x02 ∧
      apdu.p1 = (if display then 0x01 else 0x00) ∧ apdu.p2 = 0x80 ∧
      apdu.data = bipPath.length :: ((bipPath.map writeUInt32BE).flatten ++ [networkType]) ∧
      apdu.data.length = 2 + 4 * bipPath.length ∧
      (∀ transport, (getAccount transport bipPath networkType display).2 = [apdu]) := by
  have hall : (bipPath.all fun s => s < 2 ^ 32) = true := by
    rw [List.all_eq_true]; intro x hx; simpa using hseg x hx
  have hA : getAccountApdu bipPath networkType display = Except.ok ⟨0xe0, 0x02,
      if display then 0x01 else 0x00, 0x80,
      bipPath.length :: ((bipPath.map writeUInt32BE).flatten ++ [networkType])⟩ := by
    unfold getAccountApdu
    rw [if_neg (by omega), if_neg (not_not_intro hall), if_neg (by omega)]
  refine ⟨_, hA, rfl, rfl, rfl, rfl, rfl, ?_, fun transport => getAccount_sent transport hA⟩
  simp only [List.length_cons, List.length_append, List.length_nil, pathSegments_length]
  omega

/-- Witness for `getAccount_packet_layout` at a concrete two-segment path. -/
theorem getAccount_packet_layout_witness :
    ∃ apdu, getAccountApdu [0x8000002C, 0x80000437] 152 true = Except.ok apdu ∧
      apdu.cla = 0xe0 ∧ apdu.ins = 0x02 ∧
      apdu.p1 = (if true then 0x01 else 0x00) ∧ apdu.p2 = 0x80 ∧
      apdu.data = [0x8000002C, 0x80000437].length
        :: (([0x8000002C, 0x80000437].map writeUInt32BE).flatten ++ [152]) ∧
      apdu.data.length = 2 + 4 * [0x8000002C, 0x80000437].length ∧
      (∀ transport, (getAccount transport [0x8000002C, 0x80000437] 152 true).2 = [apdu]) :=
  getAccount_packet_layout [0x8000002C, 0x80000437] 152 true (by decide) (by decide) (by decide)

/-- Claim C5: `getAccount` validates the response by its first byte, the
declared public-key length: any value other than 32 (including a missing
byte) fails with the invalid-response status code 27904; otherwise the
public key is the hex encoding of the next 32 response bytes.
Concretely, a response `32 :: (32 bytes 0xAB)` yields "ab" repeated 32
times, and a response with declared length 16 fails with status 27904. -/
theorem getAccount_response_check (bipPath : List Nat) (networkType : Nat) (display : Bool)
    (transport : APDU → List Nat) (apdu : APDU)
    (h : getAccountApdu bipPath networkType display = Except.ok apdu) :
    ((transport apdu).get? 0 = some 32 →
      (getAccount transport bipPath networkType display).1
        = Except.ok ⟨hexEncode (((transport apdu).drop 1).take 32)⟩) ∧
    ((transport apdu).get? 0 ≠ some 32 →
      (getAccount transport bipPath networkType display).1
        = Except.error (LedgerError.status 27904)) ∧
    (getAccount (fun _ => 32 :: List.replicate 32 0xAB) bipPath networkType display).1
      = Except.ok ⟨List.flatten (List.replicate 32 [0x61, 0x62])⟩ ∧
    (getAccount (fun _ => 16 :: List.replicate 16 0xAB) bipPath networkType display).1
      = Except.error (LedgerError.status 27904) := by
  refine ⟨fun hc => ?_, fun hc => ?_, ?_, ?_⟩
  · simp only [getAccount, h]
    rw [if_pos hc]
  · simp only [getAccount, h]
    rw [if_neg hc]
  · simp only [getAccount, h]
    rw [if_pos (show (32 :: List.replicate 32 0xAB).get? 0 = some 32 by decide)]
    show (Except.ok ⟨hexEncode ((List.replicate 32 0xAB).take 32)⟩
        : Except LedgerError AccountResult)
      = Except.ok ⟨List.flatten (List.replicate 32 [0x61, 0x62])⟩
    decide
  · simp only [getAccount, h]
    rw [if_neg (show ¬ (16 :: List.replicate 16 0xAB).get? 0 = some 32 by decide)]

/-- Witness for `getAccount_response_check` at a one-segment path. -/
theorem getAccount_response_check_witness :
    (getAccount (fun _ => 32 :: List.replicate 32 0xAB) [0x8000002C] 104 false).1
      = Except.ok ⟨List.flatten (List.replicate 32 [0x61, 0x62])⟩ :=
  (getAccount_response_check [0x8000002C] 104 false (fun _ => [])
    ⟨0xe0, 0x02, 0x00, 0x80, [1, 0x80, 0x00, 0x00, 0x2C, 104]⟩ (by decide)).2.2.1

/-- Claim C8 (amended): `getAppVersion` sends exactly one packet (class
0xE0, instruction 0x06, both parameters 0, a single zero payload byte)
and reads response bytes 1, 2, 3 as major/minor/patch (so `[0,0,1,2]`
yields major 0, minor 1, patch 2); a response shorter than 4 bytes does
NOT fail: the missing offsets simply yield absent (undefined) fields. -/
theorem getAppVersion_behaviour (transport : APDU → List Nat) :
    (getAppVersion transport).2 = [⟨0xe0, 0x06, 0x00, 0x00, [0x00]⟩] ∧
    (getAppVersion transport).1
      = ⟨(transport getAppVersionApdu).get? 1, (transport getAppVersionApdu).get? 2,
         (transport getAppVersionApdu).get? 3⟩ ∧
    (getAppVersion (fun _ => [0x00, 0, 1, 2])).1 = ⟨some 0, some 1, some 2⟩ ∧
    ((transport getAppVersionApdu).length < 4 →
      (getAppVersion transport).1.patchVersion = none) := by
  refine ⟨rfl, rfl, by decide, fun hlt => ?_⟩
  simp only [getAppVersion]
  exact List.get?_eq_none.mpr (by omega)

/-- Witness for `getAppVersion_behaviour` on a one-byte response. -/
theorem getAppVersion_behaviour_witness :
    (getAppVersion (fun _ => [0x00])).2 = [⟨0xe0, 0x06, 0x00, 0x00, [0x00]⟩] ∧
    (getAppVersion (fun _ => [0x00])).1.patchVersion = none :=
  ⟨(getAppVersion_behaviour (fun _ => [0x00])).1,
   (getAppVersion_behaviour (fun _ => [0x00])).2.2.2 (by decide)⟩

/-- Claim C8 counterexample: on the one-byte response `[0x00]` (shorter
than 4 bytes) `getAppVersion` does not fail with a malformed-response
error — there is no failure path at all: it returns a result whose three
version fields are simply the JavaScript `undefined`. -/
theorem short_version_response_counterexample :
    getAppVersion (fun _ => [0x00]) = (⟨none, none, none⟩, [getAppVersionApdu]) := by decide

theorem runLoopAux_last (transport : Nat → APDU → List Nat) :
    ∀ (apdus : List APDU) (i : Nat) (response : List Nat) (h : apdus ≠ []),
      runLoopAux transport i response apdus
        = transport (i + apdus.length - 1) (apdus.getLast h) := by
  intro apdus
  induction apdus with
  | nil => intro i r h; exact absurd rfl h
  | cons a rest ih =>
    intro i r h
    cases rest with
    | nil => simp [runLoopAux, List.getLast]
    | cons b rest2 =>
      have hne : (b :: rest2) ≠ ([] : List APDU) := by simp
      rw [show runLoopAux transport i r (a :: b :: rest2)
            = runLoopAux transport (i + 1) (transport i a) (b :: rest2) from rfl]
      rw [ih (i + 1) (transport i a) hne]
      rw [List.getLast_cons hne]
      have hidx : i + 1 + (b :: rest2).length - 1 = i + (a :: b :: rest2).length - 1 := by
        simp [List.length_cons]
        omega
      rw [hidx]

theorem runLoop_last (transport : Nat → APDU → List Nat) (apdus : List APDU)
    (h : apdus ≠ []) :
    runLoop transport apdus = transport (apdus.length - 1) (apdus.getLast h) := by
  simpa [runLoop] using runLoopAux_last transport apdus 0 [] h

theorem handler_ok_inversion (bipPath rawTx : List Nat)
    (transport : Nat → APDU → List Nat) (tr : HandlerTrace)
    (h : ledgerMessageHandler bipPath rawTx transport = some (Except.ok tr)) :
    ∃ chunks, buildApduArray bipPath rawTx (rawTx.length + 1) 0 [] = some (Except.ok chunks) ∧
      tr.sent = chunks.map (fun c => c.apdu) ∧
      tr.result = (if utf8Decode (runLoop transport tr.sent) = CONTINUE_SENDING then none
                   else some (runLoop transport tr.sent)) := by
  unfold ledgerMessageHandler at h
  cases hb : buildApduArray bipPath rawTx (rawTx.length + 1) 0 [] with
  | none => rw [hb] at h; cases h
  | some r =>
    cases r with
    | error e => rw [hb] at h; cases h
    | ok chunks =>
      rw [hb] at h
      have h' : (⟨chunks.map fun c => c.apdu,
          if utf8Decode (runLoop transport (chunks.map fun c => c.apdu)) = CONTINUE_SENDING
          then none
          else some (runLoop transport (chunks.map fun c => c.apdu))⟩ : HandlerTrace) = tr :=
        Except.ok.inj (Option.some.inj h)
      subst h'
      exact ⟨chunks, rfl, rfl, rfl⟩

/-- Claim C3: only the final exchange's response is the result of the
chunked transfer: in a successful run that sent at least one packet, the
handler yields no value (the implicit undefined return, not an error)
when the final response decodes to the literal string "0x9000", and
returns the final response unchanged otherwise; every earlier exchange's
response is overwritten by the loop. -/
theorem handler_final_response_only (bipPath rawTx : List Nat)
    (transport : Nat → APDU → List Nat) (tr : HandlerTrace)
    (h : ledgerMessageHandler bipPath rawTx transport = some (Except.ok tr))
    (hne : tr.sent ≠ []) :
    (utf8Decode (transport (tr.sent.length - 1) (tr.sent.getLast hne)) = CONTINUE_SENDING →
      tr.result = none) ∧
    (utf8Decode (transport (tr.sent.length - 1) (tr.sent.getLast hne)) ≠ CONTINUE_SENDING →
      tr.result = some (transport (tr.sent.length - 1) (tr.sent.getLast hne))) := by
  obtain ⟨chunks, hb, hsent, hres⟩ := handler_ok_inversion bipPath rawTx transport tr h
  rw [runLoop_last transport tr.sent hne] at hres
  exact ⟨fun hm => by rw [hres, if_pos hm], fun hm => by rw [hres, if_neg hm]⟩

/-- Witness for `handler_final_response_only`: a one-segment path, a
one-byte payload and a device answering 0x12 on every exchange. -/
theorem handler_final_response_only_witness :
    (⟨[⟨0xe0, 0x04, 0x00, 0x80, [1, 0, 0, 0, 1, 5]⟩], some [0x12]⟩ : HandlerTrace).result
      = some [0x12] := by
  have h := handler_final_response_only [1] [5] (fun _ _ => [0x12])
    ⟨[⟨0xe0, 0x04, 0x00, 0x80, [1, 0, 0, 0, 1, 5]⟩], some [0x12]⟩ (by decide) (by decide)
  exact h.2 (by decide)

/-- Claim C9: the "continue" check compares the default (utf8) string
decoding of the final response with the six ASCII characters "0x9000"
(bytes 0x30 0x78 0x39 0x30 0x30 0x30); a final response of the two
actual status bytes 0x90 0x00 is NOT treated as "continue" and is
returned to the caller as a normal result. -/
theorem continue_marker_is_ascii_text :
    utf8Decode [0x90, 0x00] ≠ CONTINUE_SENDING ∧
    utf8Decode [0x30, 0x78, 0x39, 0x30, 0x30, 0x30] = CONTINUE_SENDING ∧
    (ledgerMessageHandler [0x8000002C] [0x05] (fun _ _ => [0x90, 0x00])).map
      (Except.map fun tr => tr.result) = some (Except.ok (some [0x90, 0x00])) ∧
    (ledgerMessageHandler [0x8000002C] [0x05]
        (fun _ _ => [0x30, 0x78, 0x39, 0x30, 0x30, 0x30])).map
      (Except.map fun tr => tr.result) = some (Except.ok none) := by decide

theorem contChunkData_ok (rawTx : List Nat) (offset cs : Int)
    (h0 : 0 ≤ offset) (h1 : 0 ≤ cs) (h2 : offset + cs ≤ (rawTx.length : Int)) :
    contChunkData rawTx offset cs
      = Except.ok ((rawTx.drop offset.toNat).take cs.toNat) := by
  unfold contChunkData
  rw [if_neg (by omega), if_neg (by omega), if_neg (by omega)]
  simp only [sliceCopy]
  have e2 : (offset + cs - offset).toNat = cs.toNat := by omega
  rw [e2]

theorem firstChunkData_ok (bipPath rawTx : List Nat) (cs : Int)
    (hL : bipPath.length ≤ 127)
    (hall : (bipPath.all fun s => s < 2 ^ 32) = true)
    (h0 : 0 ≤ cs) (hle : cs ≤ (rawTx.length : Int)) :
    firstChunkData bipPath rawTx cs
      = Except.ok (pathHeader bipPath ++ rawTx.take cs.toNat) := by
  unfold firstChunkData
  rw [if_neg (by omega), if_neg (by omega), if_neg (not_not_intro hall),
      if_neg (by omega), if_neg (by omega), if_neg (by omega)]
  simp only [sliceCopy]
  have e1 : ((0 : Int)).toNat = 0 := rfl
  have e2 : (cs - 0).toNat = cs.toNat := by omega
  rw [e1, e2, List.drop_zero]

theorem buildApduArray_cont_step (bipPath rawTx : List Nat) (n offset : Nat)
    (acc : List Chunk) (h1 : 0 < offset) (hlt : offset < rawTx.length) :
    buildApduArray bipPath rawTx (n + 1) (offset : Int) acc
      = buildApduArray bipPath rawTx n
          ((offset + min (rawTx.length - offset) 255 : Nat) : Int)
          (contChunkOf rawTx offset :: acc) := by
  have hne : ¬ ((offset : Int) = (rawTx.length : Int)) := by omega
  have h0 : ¬ ((offset : Int) = 0) := by omega
  simp only [buildApduArray]
  rw [if_neg hne]
  simp only [if_neg h0]
  have hcs : (if (rawTx.length : Int) < (offset : Int) + 255 then
        (rawTx.length : Int) - (offset : Int) else (255 : Int))
      = ((min (rawTx.length - offset) 255 : Nat) : Int) := by
    split <;> omega
  rw [hcs]
  rw [contChunkData_ok rawTx (offset : Int)
      (((min (rawTx.length - offset) 255 : Nat)) : Int) (by omega) (by omega) (by omega)]
  have hp1 : (if ((min (rawTx.length - offset) 255 : Nat) : Int) < 255
        then (0x01 : Nat) else 0x81)
      = (if min (rawTx.length - offset) 255 < 255 then (0x01 : Nat) else 0x81) := by
    by_cases hc : min (rawTx.length - offset) 255 < 255
    · rw [if_pos (by omega), if_pos hc]
    · rw [if_neg (by omega), if_neg hc]
  rw [hp1]
  rfl

theorem buildApduArray_first_step (bipPath rawTx : List Nat) (n : Nat) (acc : List Chunk)
    (hL : bipPath.length ≤ 63)
    (hall : (bipPath.all fun s => s < 2 ^ 32) = true)
    (hlen : 0 < rawTx.length) :
    buildApduArray bipPath rawTx (n + 1) 0 acc
      = buildApduArray bipPath rawTx n
          ((min rawTx.length (254 - 4 * bipPath.length) : Nat) : Int)
          (⟨0, ((min rawTx.length (254 - 4 * bipPath.length) : Nat) : Int),
            ⟨0xe0, 0x04,
              if min rawTx.length (254 - 4 * bipPath.length) < 254 - 4 * bipPath.length
                then 0x00 else 0x80,
              0x80,
              pathHeader bipPath ++ rawTx.take (min rawTx.length (254 - 4 * bipPath.length))⟩⟩
            :: acc) := by
  have hne : ¬ ((0 : Int) = (rawTx.length : Int)) := by omega
  simp only [buildApduArray, if_true]
  rw [if_neg hne]
  have hcs : (if (rawTx.length : Int) < 0 + (255 - 1 - (bipPath.length : Int) * 4) then
        (rawTx.length : Int) - 0 else (255 - 1 - (bipPath.length : Int) * 4))
      = ((min rawTx.length (254 - 4 * bipPath.length) : Nat) : Int) := by
    split <;> omega
  rw [hcs]
  rw [firstChunkData_ok bipPath rawTx
      (((min rawTx.length (254 - 4 * bipPath.length) : Nat)) : Int)
      (by omega) hall (by omega) (by omega)]
  have hp1 : (if ((min rawTx.length (254 - 4 * bipPath.length) : Nat) : Int)
        < 255 - 1 - (bipPath.length : Int) * 4 then (0x00 : Nat) else 0x80)
      = (if min rawTx.length (254 - 4 * bipPath.length) < 254 - 4 * bipPath.length
          then (0x00 : Nat) else 0x80) := by
    by_cases hc : min rawTx.length (254 - 4 * bipPath.length) < 254 - 4 * bipPath.length
    · rw [if_pos (by omega), if_pos hc]
    · rw [if_neg (by omega), if_neg hc]
  rw [hp1]
  simp only [zero_add]
  rfl

theorem buildApduArray_cont_eq (bipPath rawTx : List Nat) :
    ∀ (fuel offset : Nat) (acc : List Chunk), 0 < offset → offset ≤ rawTx.length →
      rawTx.length - offset ≤ fuel →
      buildApduArray bipPath rawTx fuel (offset : Int) acc
        = some (Except.ok (acc.reverse ++ contChunks rawTx offset)) := by
  intro fuel
  induction fuel with
  | zero =>
    intro offset acc h1 h2 h3
    have he : offset = rawTx.length := by omega
    subst he
    rw [contChunks, dif_pos (le_refl rawTx.length)]
    simp [buildApduArray]
  | succ n ih =>
    intro offset acc h1 h2 h3
    by_cases he : offset = rawTx.length
    · subst he
      rw [contChunks, dif_pos (le_refl rawTx.length)]
      simp [buildApduArray]
    · have hlt : offset < rawTx.length := by omega
      rw [buildApduArray_cont_step bipPath rawTx n offset acc h1 hlt]
      rw [ih (offset + min (rawTx.length - offset) 255) (contChunkOf rawTx offset :: acc)
          (by omega) (by omega) (by omega)]
      conv_rhs => rw [contChunks]
      rw [dif_neg (by omega : ¬ rawTx.length ≤ offset)]
      simp

theorem buildApduArray_eq_fullPlan (bipPath rawTx : List Nat)
    (hL : bipPath.length ≤ 63) (hseg : ∀ s ∈ bipPath, s < 2 ^ 32) :
    buildApduArray bipPath rawTx (rawTx.length + 1) 0 []
      = some (Except.ok (fullPlan bipPath rawTx)) := by
  have hall : (bipPath.all fun s => s < 2 ^ 32) = true := by
    rw [List.all_eq_true]; intro x hx; simpa using hseg x hx
  by_cases h0 : rawTx.length = 0
  · unfold fullPlan
    rw [if_pos h0]
    simp [buildApduArray, h0]
  · have hlen : 0 < rawTx.length := Nat.pos_of_ne_zero h0
    rw [buildApduArray_first_step bipPath rawTx rawTx.length [] hL hall hlen]
    rw [buildApduArray_cont_eq bipPath rawTx rawTx.length
        (min rawTx.length (254 - 4 * bipPath.length)) _ (by omega) (by omega) (by omega)]
    unfold fullPlan
    rw [if_neg h0]
    simp

theorem contChunks_data_flatten (rawTx : List Nat) :
    ∀ (k offset : Nat), rawTx.length - offset ≤ k →
      ((contChunks rawTx offset).map fun c => c.apdu.data).flatten = rawTx.drop offset := by
  intro k
  induction k with
  | zero =>
    intro offset h
    rw [contChunks, dif_pos (by omega)]
    simp [List.drop_eq_nil_of_le (by omega : rawTx.length ≤ offset)]
  | succ n ih =>
    intro offset h
    by_cases hle : rawTx.length ≤ offset
    · rw [contChunks, dif_pos hle]
      simp [List.drop_eq_nil_of_le hle]
    · rw [contChunks, dif_neg hle]
      simp only [List.map_cons, List.flatten_cons]
      rw [ih (offset + min (rawTx.length - offset) 255) (by omega)]
      simp only [contChunkOf]
      rw [← List.drop_drop]
      exact List.take_append_drop _ _

theorem contChunks_sum (rawTx : List Nat) :
    ∀ (k offset : Nat), rawTx.length - offset ≤ k →
      ((contChunks rawTx offset).map fun c => c.chunkSize).sum
        = ((rawTx.length - offset : Nat) : Int) := by
  intro k
  induction k with
  | zero =>
    intro offset h
    rw [contChunks, dif_pos (by omega)]
    simp
    omega
  | succ n ih =>
    intro offset h
    by_cases hle : rawTx.length ≤ offset
    · rw [contChunks, dif_pos hle]
      simp
      omega
    · rw [contChunks, dif_neg hle]
      simp only [List.map_cons, List.sum_cons]
      rw [ih (offset + min (rawTx.length - offset) 255) (by omega)]
      simp only [contChunkOf]
      omega

theorem contChunks_mem (rawTx : List Nat) :
    ∀ (k offset : Nat), rawTx.length - offset ≤ k →
      ∀ c ∈ contChunks rawTx offset, ∃ o : Nat, o < rawTx.length ∧ c = contChunkOf rawTx o := by
  intro k
  induction k with
  | zero =>
    intro offset h c hc
    rw [contChunks, dif_pos (by omega)] at hc
    exact absurd hc (List.not_mem_nil c)
  | succ n ih =>
    intro offset h c hc
    by_cases hle : rawTx.length ≤ offset
    · rw [contChunks, dif_pos hle] at hc
      exact absurd hc (List.not_mem_nil c)
    · rw [contChunks, dif_neg hle] at hc
      rcases List.mem_cons.mp hc with h1 | h2
      · exact ⟨offset, by omega, h1⟩
      · exact ih (offset + min (rawTx.length - offset) 255) (by omega) c h2

theorem buildApduArray_out_of_budget (bipPath rawTx : List Nat)
    (hL : 64 ≤ bipPath.length) (hne : rawTx ≠ []) :
    ∃ e, buildApduArray bipPath rawTx (rawTx.length + 1) 0 []
      = some (Except.error e) := by
  have hlen : 0 < rawTx.length := List.length_pos.mpr hne
  have hne0 : ¬ ((0 : Int) = (rawTx.length : Int)) := by omega
  simp only [buildApduArray, if_true]
  rw [if_neg hne0]
  have hcs : (if (rawTx.length : Int) < 0 + (255 - 1 - (bipPath.length : Int) * 4) then
        (rawTx.length : Int) - 0 else (255 - 1 - (bipPath.length : Int) * 4))
      = (255 - 1 - (bipPath.length : Int) * 4) := by
    rw [if_neg (by omega)]
  rw [hcs]
  unfold firstChunkData
  rw [if_neg (by omega)]
  by_cases h127 : 127 < bipPath.length
  · rw [if_pos h127]
    exact ⟨LedgerError.int8OutOfRange, rfl⟩
  · rw [if_neg h127]
    by_cases hall : (bipPath.all fun s => s < 2 ^ 32) = true
    · rw [if_neg (not_not_intro hall),
          if_pos (⟨by omega, by omega⟩ :
            bipPath.length ≠ 0 ∧ (255 - 1 - (bipPath.length : Int) * 4) < 0)]
      exact ⟨LedgerError.uint32OutOfRange, rfl⟩
    · rw [if_pos hall]
      exact ⟨LedgerError.uint32OutOfRange, rfl⟩

theorem handler_out_of_budget (bipPath rawTx : List Nat)
    (hL : 64 ≤ bipPath.length) (hne : rawTx ≠ []) :
    ∃ e, ∀ transport, ledgerMessageHandler bipPath rawTx transport
      = some (Except.error e) := by
  obtain ⟨e, he⟩ := buildApduArray_out_of_budget bipPath rawTx hL hne
  refine ⟨e, fun transport => ?_⟩
  unfold ledgerMessageHandler
  rw [he]

/-- Claim C1: for every in-budget derivation path (at most 63 u32
segments; first-chunk budget 255 - 1 - 4L ≥ 2) and every payload, the
chunk plan partitions the payload exactly: the concatenation of all
packet data buffers is the path header (when the payload is non-empty)
followed by the payload itself — all N bytes are covered in order with
no gaps and no overlaps, and the header appears only at the front of the
first packet; the first packet is the header plus the first
min(N, 255 - 1 - 4L) payload bytes, and every later packet is a pure
payload slice of min(remaining, 255) bytes with no header. -/
theorem chunk_plan_partition (bipPath rawTx : List Nat)
    (hL : bipPath.length ≤ 63) (hseg : ∀ s ∈ bipPath, s < 2 ^ 32) :
    ∃ chunks, buildApduArray bipPath rawTx (rawTx.length + 1) 0 [] = some (Except.ok chunks) ∧
      ((chunks.map fun c => c.apdu.data).flatten
        = (if rawTx.length = 0 then [] else pathHeader bipPath) ++ rawTx) ∧
      (∀ c ∈ chunks.head?, c.apdu.data
        = pathHeader bipPath ++ rawTx.take (min rawTx.length (254 - 4 * bipPath.length))) ∧
      (∀ c ∈ chunks.tail, ∃ o : Nat, o < rawTx.length ∧ c.offset = (o : Int) ∧
        c.apdu.data = (rawTx.drop o).take (min (rawTx.length - o) 255)) := by
  refine ⟨fullPlan bipPath rawTx, buildApduArray_eq_fullPlan bipPath rawTx hL hseg, ?_, ?_, ?_⟩
  · by_cases h0 : rawTx.length = 0
    · unfold fullPlan
      rw [if_pos h0]
      simp [List.length_eq_zero.mp h0]
    · unfold fullPlan
      rw [if_neg h0]
      simp only [List.map_cons, List.flatten_cons]
      rw [contChunks_data_flatten rawTx rawTx.length
          (min rawTx.length (254 - 4 * bipPath.length)) (by omega)]
      rw [List.append_assoc, List.take_append_drop, if_neg h0]
  · intro c hc
    unfold fullPlan at hc
    by_cases h0 : rawTx.length = 0
    · rw [if_pos h0] at hc
      exact absurd hc (by simp)
    · rw [if_neg h0] at hc
      simp only [List.head?_cons, Option.mem_def, Option.some.injEq] at hc
      rw [← hc]
  · intro c hc
    unfold fullPlan at hc
    by_cases h0 : rawTx.length = 0
    · rw [if_pos h0] at hc
      exact absurd hc (by simp)
    · rw [if_neg h0] at hc
      simp only [List.tail_cons] at hc
      obtain ⟨o, ho, hceq⟩ := contChunks_mem rawTx rawTx.length _ (by omega) c hc
      subst hceq
      exact ⟨o, ho, rfl, rfl⟩

/-- Witness for `chunk_plan_partition`: a one-segment path and the
two-byte payload [7, 8]. -/
theorem chunk_plan_partition_witness :
    ∃ chunks, buildApduArray [0x8000002C] [7, 8] ([7, 8].length + 1) 0 []
        = some (Except.ok chunks) ∧
      ((chunks.map fun c => c.apdu.data).flatten
        = (if [7, 8].length = 0 then [] else pathHeader [0x8000002C]) ++ [7, 8]) ∧
      (∀ c ∈ chunks.head?, c.apdu.data
        = pathHeader [0x8000002C]
          ++ [7, 8].take (min [7, 8].length (254 - 4 * [0x8000002C].length))) ∧
      (∀ c ∈ chunks.tail, ∃ o : Nat, o < [7, 8].length ∧ c.offset = (o : Int) ∧
        c.apdu.data = ([7, 8].drop o).take (min ([7, 8].length - o) 255)) :=
  chunk_plan_partition [0x8000002C] [7, 8] (by decide) (by decide)

set_option maxRecDepth 10000 in
/-- Claim C2 (amended): parameter-1 is the deterministic function of
(is-first, is-last) given by the table — 0x80 first chunk with more to
follow, 0x00 first chunk also last, 0x81 continuation with more to
follow, 0x01 continuation also last — where a chunk counts as "last"
exactly when its byte count is strictly SMALLER than the maximum allowed
for its position (`chunkSize < maxChunkSize`); a chunk that exactly
fills its budget is marked 0x80/0x81 even when its slice reaches the end
of the payload.  Exactly one of the four values is chosen per chunk, and
a 600-byte payload with a 3-segment path yields exactly 3 chunks of
242, 255 and 103 bytes with parameter-1 sequence 0x80, 0x81, 0x01. -/
theorem p1_encoding_by_exact_fill (bipPath rawTx : List Nat)
    (hL : bipPath.length ≤ 63) (hseg : ∀ s ∈ bipPath, s < 2 ^ 32) :
    ∃ chunks, buildApduArray bipPath rawTx (rawTx.length + 1) 0 [] = some (Except.ok chunks) ∧
      (∀ c ∈ chunks.head?, c.apdu.p1
        = if rawTx.length < 254 - 4 * bipPath.length then 0x00 else 0x80) ∧
      (∀ c ∈ chunks.tail, c.apdu.p1
        = if c.chunkSize < 255 then 0x01 else 0x81) ∧
      (∀ c ∈ chunks,
        c.apdu.p1 = 0x00 ∨ c.apdu.p1 = 0x80 ∨ c.apdu.p1 = 0x01 ∨ c.apdu.p1 = 0x81) ∧
      ((buildApduArray [0x8000002C, 0x80000398, 0x80000000]
          (List.replicate 600 0xAA) 601 0 []).map
        (Except.map fun cs => cs.map fun c => (c.chunkSize, c.apdu.p1))
        = some (Except.ok [(242, 0x80), (255, 0x81), (103, 0x01)])) := by
  have hhead : ∀ c ∈ (fullPlan bipPath rawTx).head?, c.apdu.p1
      = if rawTx.length < 254 - 4 * bipPath.length then 0x00 else 0x80 := by
    intro c hc
    unfold fullPlan at hc
    by_cases h0 : rawTx.length = 0
    · rw [if_pos h0] at hc
      exact absurd hc (by simp)
    · rw [if_neg h0] at hc
      simp only [List.head?_cons, Option.mem_def, Option.some.injEq] at hc
      rw [← hc]
      by_cases hcond : rawTx.length < 254 - 4 * bipPath.length
      · rw [if_pos hcond]
        simp only []
        rw [if_pos (by omega)]
      · rw [if_neg hcond]
        simp only []
        rw [if_neg (by omega)]
  have htail : ∀ c ∈ (fullPlan bipPath rawTx).tail, c.apdu.p1
      = if c.chunkSize < 255 then 0x01 else 0x81 := by
    intro c hc
    unfold fullPlan at hc
    by_cases h0 : rawTx.length = 0
    · rw [if_pos h0] at hc
      exact absurd hc (by simp)
    · rw [if_neg h0] at hc
      simp only [List.tail_cons] at hc
      obtain ⟨o, ho, hceq⟩ := contChunks_mem rawTx rawTx.length _ (by omega) c hc
      subst hceq
      by_cases hcond : min (rawTx.length - o) 255 < 255
      · rw [show (contChunkOf rawTx o).apdu.p1 = 0x01 from by
          simp only [contChunkOf]; rw [if_pos hcond]]
        rw [if_pos (show (contChunkOf rawTx o).chunkSize < 255 from by
          simp only [contChunkOf]; omega)]
      · rw [show (contChunkOf rawTx o).apdu.p1 = 0x81 from by
          simp only [contChunkOf]; rw [if_neg hcond]]
        rw [if_neg (show ¬ (contChunkOf rawTx o).chunkSize < 255 from by
          simp only [contChunkOf]; omega)]
  refine ⟨fullPlan bipPath rawTx, buildApduArray_eq_fullPlan bipPath rawTx hL hseg,
    hhead, htail, ?_, by decide⟩
  intro c hc
  rcases (show c ∈ (fullPlan bipPath rawTx).head?.toList
      ∨ c ∈ (fullPlan bipPath rawTx).tail from by
    cases hp : fullPlan bipPath rawTx with
    | nil => rw [hp] at hc; exact absurd hc (by simp)
    | cons a t =>
      rw [hp] at hc
      rcases List.mem_cons.mp hc with h1 | h2
      · exact Or.inl (by simp [h1])
      · exact Or.inr (by simpa using h2)) with hh | ht
  · have := hhead c (by simpa using hh)
    rw [this]
    by_cases hcond : rawTx.length < 254 - 4 * bipPath.length
    · rw [if_pos hcond]; left; rfl
    · rw [if_neg hcond]; right; left; rfl
  · have := htail c ht
    rw [this]
    by_cases hcond : c.chunkSize < 255
    · rw [if_pos hcond]; right; right; left; rfl
    · rw [if_neg hcond]; right; right; right; rfl

/-- Witness for `p1_encoding_by_exact_fill`: a one-segment path and the
two-byte payload [7, 8]. -/
theorem p1_encoding_by_exact_fill_witness :
    ∃ chunks, buildApduArray [0x8000002C] [7, 8] ([7, 8].length + 1) 0 []
        = some (Except.ok chunks) ∧
      (∀ c ∈ chunks.head?, c.apdu.p1
        = if [7, 8].length < 254 - 4 * [0x8000002C].length then 0x00 else 0x80) ∧
      (∀ c ∈ chunks.tail, c.apdu.p1
        = if c.chunkSize < 255 then 0x01 else 0x81) ∧
      (∀ c ∈ chunks,
        c.apdu.p1 = 0x00 ∨ c.apdu.p1 = 0x80 ∨ c.apdu.p1 = 0x01 ∨ c.apdu.p1 = 0x81) ∧
      ((buildApduArray [0x8000002C, 0x80000398, 0x80000000]
          (List.replicate 600 0xAA) 601 0 []).map
        (Except.map fun cs => cs.map fun c => (c.chunkSize, c.apdu.p1))
        = some (Except.ok [(242, 0x80), (255, 0x81), (103, 0x01)])) :=
  p1_encoding_by_exact_fill [0x8000002C] [7, 8] (by decide) (by decide)

set_option maxRecDepth 4000 in
/-- Claim C2 counterexample: a 242-byte payload with a 3-segment path
fits in a single chunk that exactly fills the first-chunk budget
255 - 1 - 12 = 242 and reaches the end of the payload, so by the claim's
definition of "last" its parameter-1 would have to be 0x00; the source
marks it 0x80 ("first chunk, more to follow") because its test for
"last" is `chunkSize < maxChunkSize`, which an exact fill fails. -/
theorem p1_reaches_end_counterexample :
    ((buildApduArray [0x8000002C, 0x80000398, 0x80000000]
        (List.replicate 242 0x07) 243 0 []).map
      (Except.map fun cs => cs.map fun c => (c.offset, c.chunkSize, c.apdu.p1))
      = some (Except.ok [(0, 242, 0x80)])) ∧ (0x80 : Nat) ≠ 0x00 := by decide

/-- Claim C10 (amended): for every derivation path of at most 63 segments
(u32 values) the chunk-building loop terminates with the running offset
reaching exactly the payload length — the plan is produced within the
`rawTx.length + 1` fuel and its chunk sizes sum to the payload length.
The 63-segment bound is needed for normal completion but NOT for
termination: with 64 or more segments (non-positive first-chunk budget)
and a non-empty payload, the very first iteration aborts with a Node
buffer range error while writing the path header into the first packet,
so the loop never spins and the offset never moves away. -/
theorem chunk_loop_termination (bipPath rawTx : List Nat) :
    (bipPath.length ≤ 63 → (∀ s ∈ bipPath, s < 2 ^ 32) →
      ∃ chunks, buildApduArray bipPath rawTx (rawTx.length + 1) 0 []
          = some (Except.ok chunks) ∧
        (chunks.map fun c => c.chunkSize).sum = (rawTx.length : Int)) ∧
    (64 ≤ bipPath.length → rawTx ≠ [] →
      ∃ e, buildApduArray bipPath rawTx (rawTx.length + 1) 0 []
        = some (Except.error e)) := by
  constructor
  · intro hL hseg
    refine ⟨fullPlan bipPath rawTx, buildApduArray_eq_fullPlan bipPath rawTx hL hseg, ?_⟩
    by_cases h0 : rawTx.length = 0
    · unfold fullPlan
      rw [if_pos h0]
      simp [h0]
    · unfold fullPlan
      rw [if_neg h0]
      simp only [List.map_cons, List.sum_cons]
      rw [contChunks_sum rawTx rawTx.length _ (by omega)]
      omega
  · exact buildApduArray_out_of_budget bipPath rawTx

/-- Witness for `chunk_loop_termination`: a two-segment path with a
three-byte payload, and a 64-segment path with payload [7]. -/
theorem chunk_loop_termination_witness :
    (∃ chunks, buildApduArray [0x8000002C, 0x80000398] [9, 9, 9] ([9, 9, 9].length + 1) 0 []
        = some (Except.ok chunks) ∧
      (chunks.map fun c => c.chunkSize).sum = (([9, 9, 9].length : Nat) : Int)) ∧
    (∃ e, buildApduArray (List.replicate 64 0) [7] ([7].length + 1) 0 []
      = some (Except.error e)) :=
  ⟨(chunk_loop_termination [0x8000002C, 0x80000398] [9, 9, 9]).1 (by decide) (by decide),
   (chunk_loop_termination (List.replicate 64 0) [7]).2 (by decide) (by decide)⟩

/-- Claim C10 counterexample: a 64-segment path has a non-positive
first-chunk budget (255 - 1 - 256 = -2 < 0), yet with the non-empty
payload [0x07] the loop does NOT fail to terminate and the offset never
moves away from the payload length: the very first iteration throws a
buffer range error (the 257-byte path header cannot fit the 255-byte
first packet), ending the loop before any offset update — so the
63-segment bound is not necessary for termination. -/
theorem out_of_budget_terminates_counterexample :
    buildApduArray (List.replicate 64 0x80000000) [0x07] 2 0 []
      = some (Except.error LedgerError.uint32OutOfRange) ∧
    ledgerMessageHandler (List.replicate 64 0x80000000) [0x07] (fun _ _ => [])
      = some (Except.error LedgerError.uint32OutOfRange) := by decide

/-- Claim C7 (amended): the source performs no up-front InvalidInput
validation.  An empty signing payload is NOT rejected: the handler
builds zero chunks, makes no transport exchange, and returns the empty
response as a successful value.  A path exceeding the chunk budget (64
or more segments) with a non-empty payload does fail before any
transport exchange, but with a Node buffer range error raised while
building the first packet — the outcome is independent of the transport.
(A malformed derivation path string fails in the external bip32-path
parser, before this module runs its loop.) -/
theorem handler_input_behaviour (bipPath rawTx : List Nat) :
    (∀ transport, ledgerMessageHandler bipPath [] transport
      = some (Except.ok ⟨[], some []⟩)) ∧
    (64 ≤ bipPath.length → rawTx ≠ [] →
      ∃ e, ∀ transport, ledgerMessageHandler bipPath rawTx transport
        = some (Except.error e)) := by
  exact ⟨fun transport => rfl, handler_out_of_budget bipPath rawTx⟩

/-- Witness for `handler_input_behaviour`: a one-segment path with the
empty payload, and a 64-segment path with payload [0x07]. -/
theorem handler_input_behaviour_witness :
    ledgerMessageHandler [0x8000002C] [] (fun _ _ => [0x90])
      = some (Except.ok ⟨[], some []⟩) ∧
    (∃ e, ledgerMessageHandler (List.replicate 64 0) [0x07] (fun _ _ => [])
      = some (Except.error e)) := by
  refine ⟨(handler_input_behaviour [0x8000002C] []).1 (fun _ _ => [0x90]), ?_⟩
  obtain ⟨e, he⟩ :=
    (handler_input_behaviour (List.replicate 64 0) [0x07]).2 (by decide) (by decide)
  exact ⟨e, he (fun _ _ => [])⟩

/-- Claim C7 counterexample: an empty signing payload does not yield an
InvalidInput error: the chunked transfer makes no transport exchange
(`sent = []`) and returns successfully with the empty response buffer
instead of failing. -/
theorem empty_payload_returns_ok_counterexample :
    ledgerMessageHandler [0x8000002C, 0x80000398, 0x80000000] [] (fun _ _ => [0xAA])
      = some (Except.ok ⟨[], some []⟩) := by decide
